import Mathlib

/-!
Verification of the CAP performance-dashboard backend (yahya159/CAP-fullstack).

This file shallowly embeds the core of the repository:

  * the structured-field codec (JSON.stringify / JSON.parse as used by
    srv/ticket/ticket.domain.service.js and the JSON_ARRAY_ENTITIES handlers
    of srv/performance-service.js);
  * the transition-guarded bound-action dispatcher registerBoundAction with
    its tables IMPUTATION_TRANSITIONS and PERIOD_TRANSITIONS
    (srv/shared/utils/id.js);
  * the ticket domain service beforeCreate / beforeUpdate / afterRead
    (srv/ticket/ticket.domain.service.js) and the ticket-code generators
    (srv/shared/utils/id.js, both the random-suffix and the sequential
    variant of generateTicketCode);
  * the authenticate action (srv/performance-service.js).

Modelling conventions: JavaScript strings become Lean String (or List Char at
the character level inside the codec), machine numbers that the code never
computes with become Int, records crossing the CDS store boundary become
association lists from field names to a small value type, and effects (clock,
randomness, database row count) become explicit parameters.  The JSON number
grammar is modelled for integer numerals only (the repository stores only
strings, objects and booleans inside its encoded columns; IEEE floats are out
of scope), and parse failure is Option.none, mirroring the thrown-and-caught
exception of JSON.parse.
-/

namespace CAPFullstack

/-! ### JSON values

Model of the JavaScript JSON data the codec moves across the store boundary.
Numbers are integer-valued (see the header note). -/

inductive Json where
  | null : Json
  | bool : Bool → Json
  | num : Int → Json
  | str : String → Json
  | arr : List Json → Json
  | obj : List (String × Json) → Json
deriving Inhabited

/-! ### JSON.stringify model -/

/-- Decimal digit character for a digit value below ten. -/
def decChar (d : Nat) : Char := Char.ofNat (48 + d)

/-- Lowercase hexadecimal digit character for a value below sixteen. -/
def hexChar (d : Nat) : Char :=
  if d < 10 then Char.ofNat (48 + d) else Char.ofNat (87 + d)

/-- Decimal digit characters of a natural number, most significant first
(empty for zero; use natLit for the numeral). -/
def natToChars (n : Nat) : List Char := (Nat.digits 10 n).reverse.map decChar

/-- Decimal numeral of a natural number, as JSON.stringify prints it. -/
def natLit (n : Nat) : List Char := if n = 0 then ['0'] else natToChars n

/-- Decimal numeral of an integer: optional minus sign, then digits. -/
def intLit (i : Int) : List Char := if i < 0 then '-' :: natLit i.natAbs else natLit i.natAbs

/-- JSON.stringify escaping of one string character: quote, backslash and the
named control shorthands get a backslash escape, the remaining control
characters become a lowercase u-escape, everything else stays itself. -/
def escapeJsonChar (c : Char) : List Char :=
  if c = '"' then ['\\', '"']
  else if c = '\\' then ['\\', '\\']
  else if c = Char.ofNat 8 then ['\\', 'b']
  else if c = Char.ofNat 9 then ['\\', 't']
  else if c = Char.ofNat 10 then ['\\', 'n']
  else if c = Char.ofNat 12 then ['\\', 'f']
  else if c = Char.ofNat 13 then ['\\', 'r']
  else if c.toNat < 32 then
    ['\\', 'u', '0', '0', hexChar (c.toNat / 16), hexChar (c.toNat % 16)]
  else [c]

/-- JSON string literal: opening quote, escaped characters, closing quote. -/
def strLit (s : String) : List Char :=
  '"' :: (s.toList.flatMap escapeJsonChar ++ ['"'])

/-- Keyword spelling of the null literal. -/
def nullChars : List Char := "null".toList

/-- Keyword spellings of the boolean literals. -/
def boolChars (b : Bool) : List Char := if b then "true".toList else "false".toList

mutual

/-- Character stream of JSON.stringify (no indentation argument, exactly as the
repository calls it). -/
def stringifyChars : Json → List Char
  | .num i => intLit i
  | .str s => strLit s
  | .arr es => '[' :: (stringifyElems es ++ [']'])
  | .obj ps => '{' :: (stringifyProps ps ++ ['}'])
  | .null => nullChars
  | .bool b => boolChars b

/-- Comma-joined array elements (no brackets). -/
def stringifyElems : List Json → List Char
  | [] => []
  | [e] => stringifyChars e
  | e :: es => stringifyChars e ++ ',' :: stringifyElems es

/-- Comma-joined object members (no braces). -/
def stringifyProps : List (String × Json) → List Char
  | [] => []
  | [(k, v)] => strLit k ++ ':' :: stringifyChars v
  | (k, v) :: ps => strLit k ++ ':' :: (stringifyChars v ++ ',' :: stringifyProps ps)

end

/-- Model of JSON.stringify, producing a String. -/
def jsonStringify (j : Json) : String := String.mk (stringifyChars j)

/-! ### JSON.parse model

A fuel-indexed recursive-descent parser over the character list; none models
the SyntaxError that JSON.parse throws.  Whitespace is the JSON grammar's
(space, tab, line feed, carriage return). -/

/-- JSON insignificant whitespace. -/
def isJsonWs (c : Char) : Bool := c = ' ' || c = Char.ofNat 9 || c = Char.ofNat 10 || c = Char.ofNat 13

/-- Drop leading JSON whitespace. -/
def dropWs : List Char → List Char
  | [] => []
  | c :: cs => if isJsonWs c then dropWs cs else c :: cs

/-- Value of one hexadecimal digit character, upper or lower case. -/
def hexDigitVal (c : Char) : Option Nat :=
  if 48 ≤ c.toNat ∧ c.toNat ≤ 57 then some (c.toNat - 48)
  else if 97 ≤ c.toNat ∧ c.toNat ≤ 102 then some (c.toNat - 87)
  else if 65 ≤ c.toNat ∧ c.toNat ≤ 70 then some (c.toNat - 55)
  else none

/-- Value of a four-digit hexadecimal escape payload. -/
def hexQuad (a b c d : Char) : Option Nat := do
  let x ← hexDigitVal a
  let y ← hexDigitVal b
  let z ← hexDigitVal c
  let w ← hexDigitVal d
  pure (((x * 16 + y) * 16 + z) * 16 + w)

/-- Character denoted by a short backslash escape, if legal. -/
def unescapeShort (c : Char) : Option Char :=
  if c = '"' then some '"'
  else if c = '\\' then some '\\'
  else if c = '/' then some '/'
  else if c = 'b' then some (Char.ofNat 8)
  else if c = 'f' then some (Char.ofNat 12)
  else if c = 'n' then some (Char.ofNat 10)
  else if c = 'r' then some (Char.ofNat 13)
  else if c = 't' then some (Char.ofNat 9)
  else none

/-- Parse the body of a string literal after the opening quote, returning the
decoded characters and the input after the closing quote. -/
def parseStringBody : List Char → Option (List Char × List Char)
  | [] => none
  | c :: rest =>
    if c = '"' then some ([], rest)
    else if c = '\\' then
      match rest with
      | [] => none
      | e :: r2 =>
        if e = 'u' then
          match r2 with
          | a :: b :: c2 :: d :: r3 =>
            match hexQuad a b c2 d with
            | none => none
            | some m =>
              match parseStringBody r3 with
              | none => none
              | some (s, r) => some (Char.ofNat m :: s, r)
          | _ => none
        else
          match unescapeShort e with
          | none => none
          | some ch =>
            match parseStringBody r2 with
            | none => none
            | some (s, r) => some (ch :: s, r)
    else
      match parseStringBody rest with
      | none => none
      | some (s, r) => some (c :: s, r)

/-- True when the stream continues with a fractional or exponent part, which
the integer-only number model does not cover. -/
def floatFollows : List Char → Bool
  | [] => false
  | c :: _ => c = '.' || c = 'e' || c = 'E'

/-- Accumulate the value of a run of decimal digit characters. -/
def natOfDigitChars (ds : List Char) : Nat :=
  ds.foldl (fun a c => 10 * a + (c.toNat - 48)) 0

/-- Parse an unsigned integer numeral: a nonempty digit run not followed by a
fractional or exponent part. -/
def parseNatToken (cs : List Char) : Option (Nat × List Char) :=
  let ds := cs.takeWhile Char.isDigit
  let r := cs.dropWhile Char.isDigit
  if ds.isEmpty then none
  else if floatFollows r then none
  else some (natOfDigitChars ds, r)

/-- Parse a signed integer numeral. -/
def parseIntToken (cs : List Char) : Option (Json × List Char) :=
  match cs with
  | '-' :: r =>
    match parseNatToken r with
    | none => none
    | some (n, r') => some (.num (-(n : Int)), r')
  | _ =>
    match parseNatToken cs with
    | none => none
    | some (n, r') => some (.num (n : Int), r')

mutual

/-- Parse one JSON value; fuel bounds the recursion depth. -/
def parseValue : Nat → List Char → Option (Json × List Char)
  | 0, _ => none
  | fuel + 1, cs =>
    match dropWs cs with
    | 'n' :: 'u' :: 'l' :: 'l' :: r => some (.null, r)
    | 't' :: 'r' :: 'u' :: 'e' :: r => some (.bool true, r)
    | 'f' :: 'a' :: 'l' :: 's' :: 'e' :: r => some (.bool false, r)
    | '"' :: r =>
      match parseStringBody r with
      | none => none
      | some (s, r') => some (.str (String.mk s), r')
    | '[' :: r =>
      (match dropWs r with
       | [] => none
       | c :: r' =>
         if c = ']' then some (.arr [], r')
         else
           match parseItems fuel (c :: r') with
           | none => none
           | some (es, r'') => some (.arr es, r''))
    | '{' :: r =>
      (match dropWs r with
       | [] => none
       | c :: r' =>
         if c = '}' then some (.obj [], r')
         else
           match parseProps fuel (c :: r') with
           | none => none
           | some (ps, r'') => some (.obj ps, r''))
    | cs' => parseIntToken cs'

/-- Parse one or more comma-separated array elements and the closing bracket. -/
def parseItems : Nat → List Char → Option (List Json × List Char)
  | 0, _ => none
  | fuel + 1, cs =>
    match parseValue fuel cs with
    | none => none
    | some (v, r) =>
      match dropWs r with
      | ',' :: r' =>
        (match parseItems fuel r' with
         | none => none
         | some (vs, r'') => some (v :: vs, r''))
      | ']' :: r' => some ([v], r')
      | _ => none

/-- Parse one or more comma-separated object members and the closing brace. -/
def parseProps : Nat → List Char → Option (List (String × Json) × List Char)
  | 0, _ => none
  | fuel + 1, cs =>
    match dropWs cs with
    | '"' :: r =>
      (match parseStringBody r with
       | none => none
       | some (k, r1) =>
         match dropWs r1 with
         | ':' :: r2 =>
           (match parseValue fuel r2 with
            | none => none
            | some (v, r3) =>
              match dropWs r3 with
              | ',' :: r4 =>
                (match parseProps fuel r4 with
                 | none => none
                 | some (ps, r5) => some ((String.mk k, v) :: ps, r5))
              | '}' :: r4 => some ([(String.mk k, v)], r4)
              | _ => none)
         | _ => none)
    | _ => none

end

/-- Model of JSON.parse: parse one value with ample fuel and require that only
whitespace remains; none models the thrown SyntaxError. -/
def jsonParse (s : String) : Option Json :=
  match parseValue (s.toList.length + 1) s.toList with
  | none => none
  | some (j, r) => if dropWs r = [] then some j else none

/-! ### Round-trip infrastructure: digits and numerals -/

theorem decChar_toNat {d : Nat} (h : d < 10) : (decChar d).toNat = 48 + d := by
  interval_cases d <;> decide

theorem decChar_isDigit {d : Nat} (h : d < 10) : (decChar d).isDigit = true := by
  interval_cases d <;> decide

theorem natToChars_digits (n : Nat) : ∀ c ∈ natToChars n, c.isDigit = true := by
  intro c hc
  simp only [natToChars, List.mem_map, List.mem_reverse] at hc
  obtain ⟨d, hd, rfl⟩ := hc
  exact decChar_isDigit (Nat.digits_lt_base (by omega) hd)

theorem natLit_digits (n : Nat) : ∀ c ∈ natLit n, c.isDigit = true := by
  intro c hc
  by_cases h : n = 0
  · simp only [natLit, if_pos h, List.mem_singleton] at hc
    subst hc; decide
  · exact natToChars_digits n c (by simpa [natLit, h] using hc)

theorem natLit_ne_nil (n : Nat) : natLit n ≠ [] := by
  by_cases h : n = 0
  · simp [natLit, h]
  · simp only [natLit, if_neg h, natToChars]
    intro hcon
    rw [List.map_eq_nil_iff, List.reverse_eq_nil_iff] at hcon
    exact h (Nat.digits_eq_nil_iff_eq_zero.mp hcon)

/-- Folding decimal accumulation over any list equals a power-shifted base plus
the little-endian digit value of the reversed list. -/
theorem foldl_digits_eq (L : List Nat) : ∀ acc : Nat,
    L.foldl (fun a d => 10 * a + d) acc = acc * 10 ^ L.length + Nat.ofDigits 10 L.reverse := by
  induction L with
  | nil => intro acc; simp
  | cons d L ih =>
    intro acc
    rw [List.foldl_cons, ih, List.reverse_cons, Nat.ofDigits_append]
    simp only [List.length_cons, List.length_reverse, Nat.ofDigits_singleton]
    ring

/-- Folding the character-level decimal accumulator over mapped digit
characters agrees with the digit-level accumulator. -/
theorem foldl_decChar_eq (M : List Nat) (hM : ∀ d ∈ M, d < 10) : ∀ acc : Nat,
    (M.map decChar).foldl (fun a c => 10 * a + (c.toNat - 48)) acc
      = M.foldl (fun a d => 10 * a + d) acc := by
  induction M with
  | nil => intro acc; rfl
  | cons d M ih =>
    intro acc
    have hd : d < 10 := hM d (List.mem_cons_self d M)
    simp only [List.map_cons, List.foldl_cons, decChar_toNat hd]
    rw [ih (fun x hx => hM x (List.mem_cons_of_mem d hx))]
    congr 1
    omega

theorem natOfDigitChars_natToChars (n : Nat) : natOfDigitChars (natToChars n) = n := by
  unfold natOfDigitChars natToChars
  rw [foldl_decChar_eq _ (fun d hd => Nat.digits_lt_base (by omega) (List.mem_reverse.mp hd)),
    foldl_digits_eq, List.reverse_reverse]
  simpa using Nat.ofDigits_digits 10 n

theorem natOfDigitChars_natLit (n : Nat) : natOfDigitChars (natLit n) = n := by
  by_cases h : n = 0
  · subst h; decide
  · simp only [natLit, if_neg h]
    exact natOfDigitChars_natToChars n

/-! ### Round-trip infrastructure: digit runs in the stream -/

/-- The remainder cannot extend an integer numeral: it is empty or starts with
a character that is no digit and none of the fractional or exponent markers. -/
def stopsInt : List Char → Bool
  | [] => true
  | c :: _ => !(c.isDigit || c = '.' || c = 'e' || c = 'E')

theorem takeWhile_digit_run {ds rest : List Char} (hds : ∀ c ∈ ds, c.isDigit = true)
    (hrest : stopsInt rest = true) :
    (ds ++ rest).takeWhile Char.isDigit = ds ∧ (ds ++ rest).dropWhile Char.isDigit = rest := by
  induction ds with
  | nil =>
    simp only [List.nil_append]
    cases rest with
    | nil => simp
    | cons c t =>
      simp only [stopsInt, Bool.not_eq_true', Bool.or_eq_false_iff] at hrest
      simp [List.takeWhile_cons, List.dropWhile_cons, hrest.1.1.1]
  | cons c t ih =>
    have hc : c.isDigit = true := hds c (List.mem_cons_self c t)
    have := ih (fun x hx => hds x (List.mem_cons_of_mem c hx))
    simp [List.takeWhile_cons, List.dropWhile_cons, hc, this.1, this.2]

theorem parseNatToken_natLit (n : Nat) (rest : List Char) (hrest : stopsInt rest = true) :
    parseNatToken (natLit n ++ rest) = some (n, rest) := by
  obtain ⟨htake, hdrop⟩ := takeWhile_digit_run (natLit_digits n) hrest
  have hfl : floatFollows rest = false := by
    cases rest with
    | nil => rfl
    | cons c t =>
      simp only [stopsInt, Bool.not_eq_true', Bool.or_eq_false_iff,
        decide_eq_false_iff_not] at hrest
      obtain ⟨⟨⟨_, h2⟩, h3⟩, h4⟩ := hrest
      simp [floatFollows, h2, h3, h4]
  simp [parseNatToken, htake, hdrop, hfl, natLit_ne_nil n, natOfDigitChars_natLit]

theorem digit_head_facts {c : Char} (h : c.isDigit = true) :
    isJsonWs c = false ∧ c ≠ '-' ∧ c ≠ 'n' ∧ c ≠ 't' ∧ c ≠ 'f' ∧ c ≠ ':' ∧ c ≠ '"' ∧
      c ≠ '[' ∧ c ≠ '{' ∧ c ≠ ']' ∧ c ≠ '}' ∧ c ≠ ',' := by
  refine ⟨?_, ?_, ?_, ?_, ?_, ?_, ?_, ?_, ?_, ?_, ?_, ?_⟩
  · simp only [isJsonWs, Bool.or_eq_false_iff, decide_eq_false_iff_not]
    refine ⟨⟨⟨?_, ?_⟩, ?_⟩, ?_⟩ <;> (intro hcon; subst hcon; exact absurd h (by decide))
  all_goals intro hcon; subst hcon; exact absurd h (by decide)

theorem parseIntToken_intLit (i : Int) (rest : List Char) (hrest : stopsInt rest = true) :
    parseIntToken (intLit i ++ rest) = some (.num i, rest) := by
  by_cases hneg : i < 0
  · have harg : intLit i ++ rest = '-' :: (natLit i.natAbs ++ rest) := by
      simp [intLit, hneg]
    rw [harg]
    simp only [parseIntToken, parseNatToken_natLit i.natAbs rest hrest]
    have hi : ((i.natAbs : Int)) = -i := by omega
    rw [hi, neg_neg]
  · obtain ⟨c, t, hct⟩ : ∃ c t, natLit i.natAbs = c :: t := by
      cases h : natLit i.natAbs with
      | nil => exact absurd h (natLit_ne_nil _)
      | cons c t => exact ⟨c, t, rfl⟩
    have hcd : c.isDigit = true := natLit_digits _ c (hct ▸ List.mem_cons_self c t)
    have hcm : c ≠ '-' := (digit_head_facts hcd).2.1
    have harg : intLit i ++ rest = c :: (t ++ rest) := by
      simp [intLit, hneg, hct]
    rw [harg]
    have hnat : parseNatToken (c :: (t ++ rest)) = some (i.natAbs, rest) := by
      have := parseNatToken_natLit i.natAbs rest hrest
      rwa [hct, List.cons_append] at this
    simp only [parseIntToken]
    split
    · rename_i r heq
      exact absurd (by injection heq) hcm
    · rw [hnat]
      have hi : ((i.natAbs : Int)) = i := by omega
      simp only [hi]

/-! ### Round-trip infrastructure: string escapes -/

theorem hexDigitVal_hexChar {d : Nat} (h : d < 16) : hexDigitVal (hexChar d) = some d := by
  interval_cases d <;> decide

theorem parseStringBody_escape (c : Char) (rest : List Char) :
    parseStringBody (escapeJsonChar c ++ rest)
      = match parseStringBody rest with
        | none => none
        | some (s, r) => some (c :: s, r) := by
  by_cases h1 : c = '"'
  · subst h1; simp only [escapeJsonChar, if_pos rfl, List.cons_append, List.nil_append]
    rw [parseStringBody.eq_def]; simp [unescapeShort]
  by_cases h2 : c = '\\'
  · subst h2; simp only [escapeJsonChar, if_neg h1, if_pos rfl, List.cons_append, List.nil_append]
    rw [parseStringBody.eq_def]; simp [unescapeShort]
  by_cases h3 : c = Char.ofNat 8
  · subst h3
    simp only [escapeJsonChar, if_neg h1, if_neg h2, if_pos rfl, List.cons_append, List.nil_append]
    rw [parseStringBody.eq_def]; simp [unescapeShort]
  by_cases h4 : c = Char.ofNat 9
  · subst h4
    simp only [escapeJsonChar, if_neg h1, if_neg h2, if_neg h3, if_pos rfl, List.cons_append,
      List.nil_append]
    rw [parseStringBody.eq_def]; simp [unescapeShort]
  by_cases h5 : c = Char.ofNat 10
  · subst h5
    simp only [escapeJsonChar, if_neg h1, if_neg h2, if_neg h3, if_neg h4, if_pos rfl,
      List.cons_append, List.nil_append]
    rw [parseStringBody.eq_def]; simp [unescapeShort]
  by_cases h6 : c = Char.ofNat 12
  · subst h6
    simp only [escapeJsonChar, if_neg h1, if_neg h2, if_neg h3, if_neg h4, if_neg h5, if_pos rfl,
      List.cons_append, List.nil_append]
    rw [parseStringBody.eq_def]; simp [unescapeShort]
  by_cases h7 : c = Char.ofNat 13
  · subst h7
    simp only [escapeJsonChar, if_neg h1, if_neg h2, if_neg h3, if_neg h4, if_neg h5, if_neg h6,
      if_pos rfl, List.cons_append, List.nil_append]
    rw [parseStringBody.eq_def]; simp [unescapeShort]
  by_cases h8 : c.toNat < 32
  · have hdiv : c.toNat / 16 < 16 := by omega
    have hmod : c.toNat % 16 < 16 := by omega
    have hquad : hexQuad '0' '0' (hexChar (c.toNat / 16)) (hexChar (c.toNat % 16))
        = some c.toNat := by
      have h0 : hexDigitVal '0' = some 0 := by decide
      simp only [hexQuad, h0, hexDigitVal_hexChar hdiv, hexDigitVal_hexChar hmod,
        Option.bind_eq_bind, Option.some_bind, Option.pure_def, Option.some.injEq]
      omega
    simp only [escapeJsonChar, if_neg h1, if_neg h2, if_neg h3, if_neg h4, if_neg h5, if_neg h6,
      if_neg h7, if_pos h8, List.cons_append, List.nil_append]
    rw [parseStringBody.eq_def]
    simp [hquad, Char.ofNat_toNat]
  · simp only [escapeJsonChar, if_neg h1, if_neg h2, if_neg h3, if_neg h4, if_neg h5, if_neg h6,
      if_neg h7, if_neg h8, List.cons_append, List.nil_append]
    rw [parseStringBody.eq_def]
    simp only [if_neg h1, if_neg h2]

theorem parseStringBody_flat (l : List Char) : ∀ rest : List Char,
    parseStringBody (l.flatMap escapeJsonChar ++ '"' :: rest) = some (l, rest) := by
  induction l with
  | nil =>
    intro rest
    rw [List.flatMap_nil, List.nil_append, parseStringBody.eq_def]
    simp
  | cons c t ih =>
    intro rest
    rw [List.flatMap_cons, List.append_assoc, parseStringBody_escape, ih rest]

theorem parseStringBody_strLit (s : String) (rest : List Char) :
    parseStringBody (s.toList.flatMap escapeJsonChar ++ ('"' :: rest)) = some (s.toList, rest) :=
  parseStringBody_flat s.toList rest

/-! ### Round-trip infrastructure: stream heads and branch reductions -/

theorem dropWs_not_ws {c : Char} (t : List Char) (h : isJsonWs c = false) :
    dropWs (c :: t) = c :: t := by
  simp [dropWs, h]

theorem stringMk_toList (s : String) : String.mk s.toList = s := by
  cases s; rfl

theorem intLit_head (i : Int) : ∃ c t, intLit i = c :: t ∧ isJsonWs c = false ∧
    c ≠ 'n' ∧ c ≠ 't' ∧ c ≠ 'f' ∧ c ≠ ':' ∧ c ≠ '"' ∧ c ≠ '[' ∧ c ≠ '{' ∧
    c ≠ ']' ∧ c ≠ '}' ∧ c ≠ ',' := by
  by_cases hneg : i < 0
  · exact ⟨'-', natLit i.natAbs, by simp [intLit, hneg], by decide⟩
  · obtain ⟨c, t, hct⟩ : ∃ c t, natLit i.natAbs = c :: t := by
      cases h : natLit i.natAbs with
      | nil => exact absurd h (natLit_ne_nil _)
      | cons c t => exact ⟨c, t, rfl⟩
    have hcd : c.isDigit = true := natLit_digits _ c (hct ▸ List.mem_cons_self c t)
    obtain ⟨hws, _, hn, ht, hf, hcl, hq, hl, hb, hr, hbr, hcm⟩ := digit_head_facts hcd
    exact ⟨c, t, by simp [intLit, hneg, hct], hws, hn, ht, hf, hcl, hq, hl, hb, hr, hbr, hcm⟩

theorem stringifyChars_head (j : Json) : ∃ c t, stringifyChars j = c :: t ∧
    isJsonWs c = false ∧ c ≠ ']' ∧ c ≠ '}' ∧ c ≠ ',' := by
  cases j with
  | null => exact ⟨'n', _, rfl, by decide⟩
  | bool b =>
    cases b with
    | true => exact ⟨'t', _, rfl, by decide⟩
    | false => exact ⟨'f', _, rfl, by decide⟩
  | num i =>
    obtain ⟨c, t, hct, hws, _, _, _, _, _, _, _, hr, hbr, hcm⟩ := intLit_head i
    exact ⟨c, t, by simp [stringifyChars, hct], hws, hr, hbr, hcm⟩
  | str s =>
    exact ⟨'"', s.toList.flatMap escapeJsonChar ++ ['"'], rfl, by decide⟩
  | arr es =>
    exact ⟨'[', stringifyElems es ++ [']'], rfl, by decide⟩
  | obj ps =>
    exact ⟨'{', stringifyProps ps ++ ['}'], rfl, by decide⟩

theorem stringifyChars_length_pos (j : Json) : 1 ≤ (stringifyChars j).length := by
  obtain ⟨c, t, hct, _⟩ := stringifyChars_head j
  simp [hct]

theorem dropWs_stringify (j : Json) (x : List Char) :
    dropWs (stringifyChars j ++ x) = stringifyChars j ++ x := by
  obtain ⟨c, t, hct, hws, _⟩ := stringifyChars_head j
  rw [hct, List.cons_append]
  exact dropWs_not_ws _ hws

/-- With a head that opens no keyword, string, array or object, the value
parser falls through to the numeral token. -/
theorem parseValue_token (fuel : Nat) (c : Char) (t : List Char)
    (hws : isJsonWs c = false) (hn : c ≠ 'n') (ht : c ≠ 't') (hf : c ≠ 'f')
    (hq : c ≠ '"') (hl : c ≠ '[') (hb : c ≠ '{') :
    parseValue (fuel + 1) (c :: t) = parseIntToken (c :: t) := by
  rw [parseValue.eq_def]
  simp only
  rw [dropWs_not_ws t hws]
  split
  · rename_i heq; exact absurd (by injection heq) hn
  · rename_i heq; exact absurd (by injection heq) ht
  · rename_i heq; exact absurd (by injection heq) hf
  · rename_i heq; exact absurd (by injection heq) hq
  · rename_i heq; exact absurd (by injection heq) hl
  · rename_i heq; exact absurd (by injection heq) hb
  · rfl

/-- The array branch of the value parser, when the element stream opens with
neither whitespace nor a closing bracket. -/
theorem parseValue_arrBranch (fuel : Nat) (c : Char) (t : List Char)
    (hws : isJsonWs c = false) (hr : c ≠ ']') :
    parseValue (fuel + 1) ('[' :: (c :: t)) =
      match parseItems fuel (c :: t) with
      | none => none
      | some (es, r'') => some (.arr es, r'') := by
  rw [parseValue.eq_def]
  simp only
  rw [dropWs_not_ws _ (by decide)]
  simp only
  rw [dropWs_not_ws t hws]
  simp only [if_neg hr]

/-- The object branch of the value parser, when the member stream opens with a
string key. -/
theorem parseValue_objBranch (fuel : Nat) (t : List Char) :
    parseValue (fuel + 1) ('{' :: ('"' :: t)) =
      match parseProps fuel ('"' :: t) with
      | none => none
      | some (ps, r'') => some (.obj ps, r'') := by
  rw [parseValue.eq_def]
  simp only
  rw [dropWs_not_ws _ (by decide)]
  simp only
  rw [dropWs_not_ws t (by decide)]
  simp only [if_neg (by decide : ¬('"' : Char) = '}')]

theorem strLit_shift (s : String) (x : List Char) :
    strLit s ++ x = '"' :: (s.toList.flatMap escapeJsonChar ++ ('"' :: x)) := by
  simp [strLit]

theorem stringifyElems_one (e : Json) : stringifyElems [e] = stringifyChars e := rfl

theorem stringifyElems_many (e x : Json) (xs : List Json) :
    stringifyElems (e :: x :: xs) = stringifyChars e ++ ',' :: stringifyElems (x :: xs) := rfl

theorem stringifyProps_one (k : String) (v : Json) :
    stringifyProps [(k, v)] = strLit k ++ ':' :: stringifyChars v := rfl

theorem stringifyProps_many (k : String) (v : Json) (p : String × Json)
    (ps : List (String × Json)) :
    stringifyProps ((k, v) :: p :: ps)
      = strLit k ++ ':' :: (stringifyChars v ++ ',' :: stringifyProps (p :: ps)) := rfl

theorem strLit_length (s : String) :
    (strLit s).length = (s.toList.flatMap escapeJsonChar).length + 2 := by
  simp [strLit]

theorem stringifyElems_head (e : Json) (es : List Json) :
    ∃ c t, stringifyElems (e :: es) = c :: t ∧ isJsonWs c = false ∧ c ≠ ']' := by
  obtain ⟨c, t', hct', hws, hr, _, _⟩ := stringifyChars_head e
  cases es with
  | nil => exact ⟨c, t', by rw [stringifyElems_one, hct'], hws, hr⟩
  | cons x xs =>
    exact ⟨c, t' ++ ',' :: stringifyElems (x :: xs),
      by rw [stringifyElems_many, hct', List.cons_append], hws, hr⟩

theorem stopsInt_rb (t : List Char) : stopsInt (']' :: t) = true := rfl

theorem stopsInt_cb (t : List Char) : stopsInt ('}' :: t) = true := rfl

theorem stopsInt_comma (t : List Char) : stopsInt (',' :: t) = true := rfl

/-! ### The codec round-trip, proved mutually over the value grammar -/

mutual

theorem rtVal : ∀ (j : Json) (fuel : Nat) (rest : List Char),
    (stringifyChars j).length < fuel → stopsInt rest = true →
    parseValue fuel (stringifyChars j ++ rest) = some (j, rest)
  | _, 0, _, hf, _ => absurd hf (Nat.not_lt_zero _)
  | .null, fuel + 1, rest, _, _ => by
    show parseValue (fuel + 1) ('n' :: 'u' :: 'l' :: 'l' :: rest) = some (.null, rest)
    rw [parseValue.eq_def]
    simp [dropWs, isJsonWs]
  | .bool true, fuel + 1, rest, _, _ => by
    show parseValue (fuel + 1) ('t' :: 'r' :: 'u' :: 'e' :: rest) = some (.bool true, rest)
    rw [parseValue.eq_def]
    simp [dropWs, isJsonWs]
  | .bool false, fuel + 1, rest, _, _ => by
    show parseValue (fuel + 1) ('f' :: 'a' :: 'l' :: 's' :: 'e' :: rest) = some (.bool false, rest)
    rw [parseValue.eq_def]
    simp [dropWs, isJsonWs]
  | .num i, fuel + 1, rest, _, hstop => by
    obtain ⟨c, t, hct, hws, hn, ht, hfc, _, hq, hl, hb, _, _, _⟩ := intLit_head i
    have harg : stringifyChars (.num i) ++ rest = c :: (t ++ rest) := by
      show intLit i ++ rest = c :: (t ++ rest)
      rw [hct, List.cons_append]
    rw [harg, parseValue_token fuel c (t ++ rest) hws hn ht hfc hq hl hb, ← List.cons_append,
      ← hct]
    exact parseIntToken_intLit i rest hstop
  | .str s, fuel + 1, rest, _, _ => by
    have harg : stringifyChars (.str s) ++ rest
        = '"' :: (s.toList.flatMap escapeJsonChar ++ ('"' :: rest)) := by
      show strLit s ++ rest = _
      rw [strLit_shift]
    rw [harg, parseValue.eq_def]
    simp only
    rw [dropWs_not_ws _ (by decide)]
    simp only [parseStringBody_strLit s rest, stringMk_toList]
  | .arr [], fuel + 1, rest, _, _ => by
    show parseValue (fuel + 1) ('[' :: ']' :: rest) = some (.arr [], rest)
    rw [parseValue.eq_def]
    simp only
    rw [dropWs_not_ws _ (by decide)]
    simp only
    rw [dropWs_not_ws _ (by decide)]
    simp
  | .arr (e :: es), fuel + 1, rest, hf, _ => by
    obtain ⟨c, t, hct, hws, hr⟩ := stringifyElems_head e es
    have hlen : (stringifyElems (e :: es)).length + 1 < fuel := by
      have : (stringifyChars (.arr (e :: es))).length
          = (stringifyElems (e :: es)).length + 2 := by
        show ('[' :: (stringifyElems (e :: es) ++ [']'])).length = _
        simp
      omega
    have harg : stringifyChars (.arr (e :: es)) ++ rest
        = '[' :: (c :: (t ++ (']' :: rest))) := by
      show ('[' :: (stringifyElems (e :: es) ++ [']'])) ++ rest = _
      rw [List.cons_append, List.append_assoc, hct, List.cons_append]
      rfl
    rw [harg, parseValue_arrBranch fuel c (t ++ (']' :: rest)) hws hr,
      show c :: (t ++ (']' :: rest)) = stringifyElems (e :: es) ++ (']' :: rest) from by
        rw [hct, List.cons_append],
      rtItems e es fuel rest hlen]
  | .obj [], fuel + 1, rest, _, _ => by
    show parseValue (fuel + 1) ('{' :: '}' :: rest) = some (.obj [], rest)
    rw [parseValue.eq_def]
    simp only
    rw [dropWs_not_ws _ (by decide)]
    simp only
    rw [dropWs_not_ws _ (by decide)]
    simp
  | .obj ((k, v) :: ps), fuel + 1, rest, hf, _ => by
    have hlen : (stringifyProps ((k, v) :: ps)).length + 1 < fuel := by
      have : (stringifyChars (.obj ((k, v) :: ps))).length
          = (stringifyProps ((k, v) :: ps)).length + 2 := by
        show ('{' :: (stringifyProps ((k, v) :: ps) ++ ['}'])).length = _
        simp
      omega
    have hhead : ∃ t, stringifyProps ((k, v) :: ps) = '"' :: t := by
      cases ps with
      | nil =>
        refine ⟨(k.toList.flatMap escapeJsonChar ++ ['"']) ++ ':' :: stringifyChars v, ?_⟩
        rw [stringifyProps_one]
        rfl
      | cons p2 ps2 =>
        refine ⟨(k.toList.flatMap escapeJsonChar ++ ['"'])
          ++ ':' :: (stringifyChars v ++ ',' :: stringifyProps (p2 :: ps2)), ?_⟩
        rw [stringifyProps_many]
        rfl
    obtain ⟨t, ht⟩ := hhead
    have harg : stringifyChars (.obj ((k, v) :: ps)) ++ rest
        = '{' :: ('"' :: (t ++ ('}' :: rest))) := by
      show ('{' :: (stringifyProps ((k, v) :: ps) ++ ['}'])) ++ rest = _
      rw [List.cons_append, List.append_assoc, ht, List.cons_append]
      rfl
    rw [harg, parseValue_objBranch fuel (t ++ ('}' :: rest)),
      show '"' :: (t ++ ('}' :: rest)) = stringifyProps ((k, v) :: ps) ++ ('}' :: rest) from by
        rw [ht, List.cons_append],
      rtProps (k, v) ps fuel rest hlen]
termination_by j fuel rest _ _ => sizeOf j

theorem rtItems : ∀ (e : Json) (es : List Json) (fuel : Nat) (rest : List Char),
    (stringifyElems (e :: es)).length + 1 < fuel →
    parseItems fuel (stringifyElems (e :: es) ++ (']' :: rest)) = some (e :: es, rest)
  | _, _, 0, _, hf => absurd hf (Nat.not_lt_zero _)
  | e, [], fuel + 1, rest, hf => by
    have hlen : (stringifyChars e).length < fuel := by
      rw [stringifyElems_one] at hf; omega
    have hv := rtVal e fuel (']' :: rest) hlen (stopsInt_rb rest)
    rw [stringifyElems_one, parseItems.eq_def]
    simp only [hv]
    rw [dropWs_not_ws _ (by decide)]
    rfl
  | e, x :: xs, fuel + 1, rest, hf => by
    have hsz : (stringifyElems (e :: x :: xs)).length
        = (stringifyChars e).length + 1 + (stringifyElems (x :: xs)).length := by
      rw [stringifyElems_many]; simp; omega
    have hE := stringifyChars_length_pos e
    have hlenE : (stringifyChars e).length < fuel := by omega
    have hlenT : (stringifyElems (x :: xs)).length + 1 < fuel := by omega
    have hv := rtVal e fuel (',' :: (stringifyElems (x :: xs) ++ (']' :: rest))) hlenE
      (stopsInt_comma _)
    have hrec := rtItems x xs fuel rest hlenT
    have harg : stringifyElems (e :: x :: xs) ++ (']' :: rest)
        = stringifyChars e ++ (',' :: (stringifyElems (x :: xs) ++ (']' :: rest))) := by
      rw [stringifyElems_many, List.append_assoc]
      rfl
    rw [harg, parseItems.eq_def]
    simp only [hv]
    rw [dropWs_not_ws _ (by decide)]
    simp only [hrec]
termination_by e es fuel _ _ => sizeOf e + sizeOf es

theorem rtProps : ∀ (p : String × Json) (ps : List (String × Json)) (fuel : Nat)
    (rest : List Char),
    (stringifyProps (p :: ps)).length + 1 < fuel →
    parseProps fuel (stringifyProps (p :: ps) ++ ('}' :: rest)) = some (p :: ps, rest)
  | _, _, 0, _, hf => absurd hf (Nat.not_lt_zero _)
  | (k, v), [], fuel + 1, rest, hf => by
    have hlen : (stringifyChars v).length < fuel := by
      rw [stringifyProps_one] at hf
      have := strLit_length k
      simp only [List.length_append, List.length_cons] at hf
      omega
    have hv := rtVal v fuel ('}' :: rest) hlen (stopsInt_cb rest)
    have harg : stringifyProps [(k, v)] ++ ('}' :: rest)
        = '"' :: (k.toList.flatMap escapeJsonChar
            ++ ('"' :: (':' :: (stringifyChars v ++ ('}' :: rest))))) := by
      rw [stringifyProps_one, List.append_assoc, strLit_shift]
      rfl
    rw [harg, parseProps.eq_def]
    simp only
    rw [dropWs_not_ws _ (by decide)]
    simp only [parseStringBody_strLit k]
    rw [dropWs_not_ws _ (by decide)]
    simp only [hv]
    rw [dropWs_not_ws _ (by decide)]
    simp only [stringMk_toList]
  | (k, v), p2 :: ps2, fuel + 1, rest, hf => by
    have hsz : (stringifyProps ((k, v) :: p2 :: ps2)).length
        = (strLit k).length + 1 + (stringifyChars v).length + 1
            + (stringifyProps (p2 :: ps2)).length := by
      rw [stringifyProps_many]; simp; omega
    have hK := strLit_length k
    have hlenV : (stringifyChars v).length < fuel := by omega
    have hlenT : (stringifyProps (p2 :: ps2)).length + 1 < fuel := by omega
    have hv := rtVal v fuel (',' :: (stringifyProps (p2 :: ps2) ++ ('}' :: rest))) hlenV
      (stopsInt_comma _)
    have hrec := rtProps p2 ps2 fuel rest hlenT
    have harg : stringifyProps ((k, v) :: p2 :: ps2) ++ ('}' :: rest)
        = '"' :: (k.toList.flatMap escapeJsonChar
            ++ ('"' :: (':' :: (stringifyChars v
              ++ (',' :: (stringifyProps (p2 :: ps2) ++ ('}' :: rest))))))) := by
      rw [stringifyProps_many, List.append_assoc, strLit_shift]
      simp
    rw [harg, parseProps.eq_def]
    simp only
    rw [dropWs_not_ws _ (by decide)]
    simp only [parseStringBody_strLit k]
    rw [dropWs_not_ws _ (by decide)]
    simp only [hv]
    rw [dropWs_not_ws _ (by decide)]
    simp only [hrec, stringMk_toList]
termination_by p ps fuel _ _ => sizeOf p + sizeOf ps

end

/-- Parsing a stringified value recovers it exactly (JSON.parse after
JSON.stringify). -/
theorem jsonParse_jsonStringify (j : Json) : jsonParse (jsonStringify j) = some j := by
  have htl : (jsonStringify j).toList = stringifyChars j := rfl
  have hv := rtVal j ((stringifyChars j).length + 1) [] (by omega) rfl
  rw [List.append_nil] at hv
  rw [jsonParse, htl, hv]
  rfl

/-! ### Store-boundary field values

A field of a record as JavaScript sees it: absent or null, a string, or a
structured (non-string) value.  This is the value space the repository's codec
functions case on with Array.isArray and typeof checks. -/

inductive FieldVal where
  | null : FieldVal
  | text : String → FieldVal
  | json : Json → FieldVal
deriving Inhabited

/-- Array.isArray for the model. -/
def FieldVal.isArrayVal : FieldVal → Bool
  | .json (.arr _) => true
  | _ => false

/-- Model of the JavaScript nullish-coalescing default to an empty list, as in
the expression data.history ?? [] of beforeCreate. -/
def orEmptyList : FieldVal → FieldVal
  | .null => .json (.arr [])
  | v => v

/-- Model of the private helper named underscore-serializeArray of
ticket.domain.service.js: an array is stringified, a string passes through
unchanged (already serialized), anything else becomes the empty-list text. -/
def serializeArray : FieldVal → String
  | .json (.arr es) => jsonStringify (.arr es)
  | .text s => s
  | _ => "[]"

/-- ASCII whitespace recognised by the trim model. -/
def isJsTrimWs (c : Char) : Bool :=
  c = ' ' || c = Char.ofNat 9 || c = Char.ofNat 10 || c = Char.ofNat 13 ||
    c = Char.ofNat 11 || c = Char.ofNat 12

/-- JavaScript String.prototype.trim, modelled over the ASCII whitespace the
repository's data can contain. -/
def jsTrim (s : String) : String :=
  String.mk ((s.toList.dropWhile isJsTrimWs).reverse.dropWhile isJsTrimWs).reverse

/-- Model of the private helper named underscore-deserializeArray of
ticket.domain.service.js: an array stays, a string whose trimmed form opens a
list is parsed with failure giving the empty list, and every other value
becomes the empty list. -/
def deserializeArray : FieldVal → FieldVal
  | .json (.arr es) => .json (.arr es)
  | .text s =>
    if (jsTrim s).toList.head? = some '[' then
      match jsonParse s with
      | some j => .json j
      | none => .json (.arr [])
    else .json (.arr [])
  | _ => .json (.arr [])

/-- Model of the after-READ decoding the JSON_ARRAY_ENTITIES handler of
performance-service.js applies to one configured field of a non-ticket entity:
a string opening like a container is parsed, with parse failure swallowed and
the raw value kept; everything else is untouched. -/
def decodeStoredField : FieldVal → FieldVal
  | .text s =>
    if s.toList.head? = some '[' ∨ s.toList.head? = some '{' then
      match jsonParse s with
      | some j => .json j
      | none => .text s
    else .text s
  | v => v

/-- Model of the before-CREATE and before-UPDATE encoding the
JSON_WRITE_ENTITIES handler of performance-service.js applies to one
configured field of a non-ticket entity: arrays and objects are stringified,
strings and primitives pass through. -/
def encodeStoredField : FieldVal → FieldVal
  | .json (.arr es) => .text (jsonStringify (.arr es))
  | .json (.obj ps) => .text (jsonStringify (.obj ps))
  | v => v

/-! ### Records and the store

Records crossing the CDS store boundary are association lists from field
names to a small value type (status strings, audit strings, booleans, null);
the store maps record identifiers to records.  UPDATE ... with(changes)
becomes a field-wise merge, SELECT.one ... where ID becomes a lookup. -/

inductive Val where
  | null : Val
  | str : String → Val
  | bool : Bool → Val
deriving DecidableEq, Repr

abbrev Record := List (String × Val)

abbrev Store := List (String × Record)

/-- Read one field of a record; an absent field reads as null (undefined). -/
def getField (r : Record) (f : String) : Val :=
  match r.find? (fun p => p.1 = f) with
  | some p => p.2
  | none => .null

/-- Write one field of a record, replacing an existing binding in place or
appending a new one. -/
def setField (r : Record) (f : String) (v : Val) : Record :=
  if r.any (fun p => p.1 = f) then r.map (fun p => if p.1 = f then (f, v) else p)
  else r ++ [(f, v)]

/-- Apply a change set field by field, as UPDATE ... with(changes) does. -/
def applyChanges (r : Record) (changes : List (String × Val)) : Record :=
  changes.foldl (fun acc p => setField acc p.1 p.2) r

/-- SELECT.one where ID. -/
def getRec (store : Store) (id : String) : Option Record :=
  match store.find? (fun p => p.1 = id) with
  | some p => some p.2
  | none => none

/-- UPDATE where ID with changes; rows with other identifiers are untouched. -/
def updateRec (store : Store) (id : String) (changes : List (String × Val)) : Store :=
  store.map (fun p => if p.1 = id then (p.1, applyChanges p.2 changes) else p)

/-! ### Transition rules and the bound-action dispatcher

Embedding of registerBoundAction of srv/shared/utils/id.js and the two static
transition tables it consults. -/

/-- One transition rule: the allowed source statuses and the target status
(the fields named from and to in the source tables; both are keywords here,
hence allowedFrom and target). -/
structure TransitionRule where
  allowedFrom : List String
  target : String
deriving DecidableEq, Repr

/-- Allowed validationStatus transitions for Imputations
(IMPUTATION_TRANSITIONS in the source, keyed by action name). -/
def IMPUTATION_TRANSITIONS : String → Option TransitionRule := fun action =>
  if action = "validate" then some ⟨["DRAFT", "SUBMITTED", "REJECTED"], "VALIDATED"⟩
  else if action = "reject" then some ⟨["DRAFT", "SUBMITTED"], "REJECTED"⟩
  else none

/-- Allowed status transitions for ImputationPeriods
(PERIOD_TRANSITIONS in the source, keyed by action name). -/
def PERIOD_TRANSITIONS : String → Option TransitionRule := fun action =>
  if action = "submit" then some ⟨["DRAFT", "REJECTED"], "SUBMITTED"⟩
  else if action = "validate" then some ⟨["SUBMITTED"], "VALIDATED"⟩
  else if action = "reject" then some ⟨["SUBMITTED"], "REJECTED"⟩
  else none

/-- Action payload of a bound-action request (req.data). -/
structure ActionInput where
  validatedBy : Option String := none
  sentBy : Option String := none

/-- Model of the JavaScript expression req.data.validatedBy or-else null: a
missing or empty (falsy) string becomes null. -/
def orNullFalsy : Option String → Val
  | some s => if s = "" then .null else .str s
  | none => .null

/-- Model of storing an optional payload field directly (no or-else null in
the source): a missing value is stored as null. -/
def optVal : Option String → Val
  | some s => .str s
  | none => .null

/-- Errors a bound action can surface, with the data the source interpolates
into the rejection message. -/
inductive DErr where
  | missingId (entitySetName : String)
  | notFound (entitySetName : String) (id : String)
  | invalidTransition (action entitySetName id : String) (currentStatus : Val)
      (allowedFrom : List String)
deriving DecidableEq, Repr

/-- HTTP-class code each error is reported with (req.reject 400, req.error
404, req.reject 409 in the source). -/
def DErr.code : DErr → Nat
  | .missingId _ => 400
  | .notFound _ _ => 404
  | .invalidTransition _ _ _ _ _ => 409

/-- Membership test of the guard, rule.from.includes(currentStatus): strict
equality against a list of status strings, false for any non-string. -/
def memStatus (v : Val) (allowed : List String) : Bool :=
  match v with
  | .str s => allowed.contains s
  | _ => false

/-- Read current[statusField]; a null statusField configuration reads null. -/
def readStatus (statusField : Option String) (r : Record) : Val :=
  match statusField with
  | some f => getField r f
  | none => .null

/-- Result of a dispatched bound action: the response (error or the re-read
record) and the store after the call. -/
structure DispatchResult where
  response : Except DErr (Option Record)
  store : Store
deriving Repr

/-- The generic bound-action handler registerBoundAction of
srv/shared/utils/id.js: extract the identifier, fetch the current record
(404 when absent), check the state-machine rule when one is registered
(409 when the current status is outside the allowed set), then apply the
change set built by the action and re-read.  The clock is the now parameter. -/
def dispatch (action entitySetName : String) (statusField : Option String)
    (transitions : Option (String → Option TransitionRule))
    (buildChanges : ActionInput → Record → String → List (String × Val))
    (store : Store) (reqId : Option String) (input : ActionInput) (now : String) :
    DispatchResult :=
  match reqId with
  | none => ⟨.error (.missingId entitySetName), store⟩
  | some id =>
    match getRec store id with
    | none => ⟨.error (.notFound entitySetName id), store⟩
    | some current =>
      let proceed : DispatchResult :=
        let changes := buildChanges input current now
        let store' := updateRec store id changes
        ⟨.ok (getRec store' id), store'⟩
      match transitions with
      | some table =>
        match table action with
        | some rule =>
          let currentStatus := readStatus statusField current
          if memStatus currentStatus rule.allowedFrom then proceed
          else ⟨.error (.invalidTransition action entitySetName id currentStatus
            rule.allowedFrom), store⟩
        | none => proceed
      | none => proceed

/-- One registerBoundAction call site: the configuration record passed to the
helper in performance-service handler registration. -/
structure Registration where
  action : String
  entitySetName : String
  statusField : Option String
  transitions : Option (String → Option TransitionRule)
  buildChanges : ActionInput → Record → String → List (String × Val)

/-- The seven bound actions the service registers. -/
inductive RegisteredAction where
  | imputationsValidate
  | imputationsReject
  | periodsSubmit
  | periodsValidate
  | periodsReject
  | periodsSendToStraTIME
  | timeLogsSendToStraTIME
deriving DecidableEq, Repr

/-- The seven registerBoundAction call sites of srv/shared/utils/id.js, with
their buildChanges closures (nowIso() becomes the now parameter). -/
def registrations : RegisteredAction → Registration
  | .imputationsValidate =>
    { action := "validate", entitySetName := "Imputations",
      statusField := some "validationStatus", transitions := some IMPUTATION_TRANSITIONS,
      buildChanges := fun input _ now =>
        [("validationStatus", .str "VALIDATED"), ("validatedBy", orNullFalsy input.validatedBy),
         ("validatedAt", .str now)] }
  | .imputationsReject =>
    { action := "reject", entitySetName := "Imputations",
      statusField := some "validationStatus", transitions := some IMPUTATION_TRANSITIONS,
      buildChanges := fun input _ now =>
        [("validationStatus", .str "REJECTED"), ("validatedBy", orNullFalsy input.validatedBy),
         ("validatedAt", .str now)] }
  | .periodsSubmit =>
    { action := "submit", entitySetName := "ImputationPeriods",
      statusField := some "status", transitions := some PERIOD_TRANSITIONS,
      buildChanges := fun _ _ now => [("status", .str "SUBMITTED"), ("submittedAt", .str now)] }
  | .periodsValidate =>
    { action := "validate", entitySetName := "ImputationPeriods",
      statusField := some "status", transitions := some PERIOD_TRANSITIONS,
      buildChanges := fun input _ now =>
        [("status", .str "VALIDATED"), ("validatedBy", optVal input.validatedBy),
         ("validatedAt", .str now)] }
  | .periodsReject =>
    { action := "reject", entitySetName := "ImputationPeriods",
      statusField := some "status", transitions := some PERIOD_TRANSITIONS,
      buildChanges := fun input _ now =>
        [("status", .str "REJECTED"), ("validatedBy", optVal input.validatedBy),
         ("validatedAt", .str now)] }
  | .periodsSendToStraTIME =>
    { action := "sendToStraTIME", entitySetName := "ImputationPeriods",
      statusField := some "status", transitions := none,
      buildChanges := fun input _ now =>
        [("sentToStraTIME", .bool true), ("sentBy", optVal input.sentBy),
         ("sentAt", .str now)] }
  | .timeLogsSendToStraTIME =>
    { action := "sendToStraTIME", entitySetName := "TimeLogs",
      statusField := none, transitions := none,
      buildChanges := fun _ _ now => [("sentToStraTIME", .bool true), ("sentAt", .str now)] }

/-- Dispatch one of the registered bound actions. -/
def runAction (a : RegisteredAction) (store : Store) (reqId : Option String)
    (input : ActionInput) (now : String) : DispatchResult :=
  let r := registrations a
  dispatch r.action r.entitySetName r.statusField r.transitions r.buildChanges
    store reqId input now

/-- The transition rule the registered action resolves against, when any. -/
def ruleOf (a : RegisteredAction) : Option TransitionRule :=
  match (registrations a).transitions with
  | some table => table (registrations a).action
  | none => none

/-! ### Ticket-code generators

Two variants of generateTicketCode exist in the repository.  The one exported
by srv/shared/utils/id.js appends six uppercase hexadecimal characters from
crypto.randomBytes(3) (the three bytes become the entropy parameter); the
sequential variant pads the one-based per-year sequence number to four
digits. -/

/-- Uppercase hexadecimal digit character. -/
def hexUpperChar (d : Nat) : Char :=
  if d < 10 then Char.ofNat (48 + d) else Char.ofNat (55 + d)

/-- Two uppercase hexadecimal characters of one byte. -/
def byteHexUpper (b : Nat) : List Char := [hexUpperChar (b % 256 / 16), hexUpperChar (b % 16)]

/-- The random-suffix generateTicketCode of srv/shared/utils/id.js; the call
site passes a second argument which this one-parameter generator ignores. -/
def generateTicketCode (year : Nat) (entropy : List Nat) : String :=
  "TK-" ++ toString year ++ "-" ++ String.mk (entropy.flatMap byteHexUpper)

/-- JavaScript String.prototype.padStart with width four and pad zero. -/
def padStart4 (s : String) : String :=
  if 4 ≤ s.length then s else String.mk (List.replicate (4 - s.length) '0') ++ s

/-- The sequential generateTicketCode variant (zero-padded one-based sequence
number within the year). -/
def generateTicketCodeSeq (year : Nat) (seq : Nat) : String :=
  "TK-" ++ toString year ++ "-" ++ padStart4 (toString seq)

/-! ### Ticket domain service

Embedding of TicketDomainService of srv/ticket/ticket.domain.service.js.
The request payload becomes a record of optional fields; the clock, the
per-year row count and the generator entropy are parameters. -/

structure TicketData where
  ID : Option String := none
  projectId : Option String := none
  title : Option String := none
  nature : Option String := none
  status : Option String := none
  effortHours : Option Int := none
  estimationHours : Option Int := none
  createdAt : Option String := none
  updatedAt : Option String := none
  ticketCode : Option String := none
  history : FieldVal := .null
  tags : FieldVal := .null
  documentationObjectIds : FieldVal := .null
  skills : FieldVal := .null

/-- JavaScript falsiness of an optional string field (missing, null or the
empty string). -/
def falsyStr : Option String → Bool
  | none => true
  | some s => s = ""

/-- The JavaScript or-else default over a possibly falsy string field. -/
def orFalsyDefault (v : Option String) (dflt : String) : String :=
  match v with
  | some s => if s = "" then dflt else s
  | none => dflt

/-- The row count of the LIKE query of TicketRepo.countForYear: tickets whose
code starts with the TK-year- prefix. -/
def countForYear (store : List TicketData) (year : Nat) : Nat :=
  (store.filter (fun t =>
    match t.ticketCode with
    | some c => ("TK-" ++ toString year ++ "-").isPrefixOf c
    | none => false)).length

/-- The req.error(400, ...) messages beforeCreate collects for missing
required fields, in source order. -/
def requiredFieldErrors (data : TicketData) : List String :=
  (if falsyStr data.projectId then ["projectId is required"] else []) ++
    (if falsyStr data.title then ["title is required"] else []) ++
    (if falsyStr data.nature then ["nature is required"] else [])

/-- The beforeCreate hook: guard required fields (req.error collects messages
and continues), generate the ticket code (the call passes count + 1, which the
random one-parameter generator ignores), inject defaults, then serialize the
structured fields.  Returns the collected errors and the transformed data. -/
def beforeCreate (data : TicketData) (year : Nat) (count : Nat) (entropy : List Nat)
    (now : String) : List String × TicketData :=
  let errs := requiredFieldErrors data
  let _seq := count + 1
  let d1 : TicketData := { data with ticketCode := some (generateTicketCode year entropy) }
  let d2 : TicketData := { d1 with
    status := some (orFalsyDefault d1.status "NEW"),
    effortHours := some (d1.effortHours.getD 0),
    estimationHours := some (d1.estimationHours.getD 0),
    createdAt := some (orFalsyDefault d1.createdAt now),
    updatedAt := some now }
  let d3 : TicketData := { d2 with
    history := .text (serializeArray (orEmptyList d2.history)),
    tags := .text (serializeArray (orEmptyList d2.tags)),
    documentationObjectIds := .text (serializeArray (orEmptyList d2.documentationObjectIds)),
    skills := .text (serializeArray (orEmptyList d2.skills)) }
  (errs, d3)

/-- A ticket create request end to end: run beforeCreate; with collected
errors CAP fails the request before the insert, otherwise the transformed
record is inserted. -/
def createTicket (store : List TicketData) (data : TicketData) (year : Nat)
    (entropy : List Nat) (now : String) :
    Except (List String) TicketData × List TicketData :=
  let count := countForYear store year
  let (errs, d) := beforeCreate data year (count + 1) entropy now
  if errs = [] then (.ok d, store ++ [d]) else (.error errs, store)

/-- Re-serialize one structured field on update only when it arrives as an
array (the Array.isArray checks of beforeUpdate). -/
def encodeIfArray : FieldVal → FieldVal
  | .json (.arr es) => .text (jsonStringify (.arr es))
  | v => v

/-- The beforeUpdate hook: refresh updatedAt and re-serialize the structured
fields supplied as arrays; no re-validation of required fields. -/
def beforeUpdate (data : TicketData) (now : String) : TicketData :=
  { data with
    updatedAt := some now,
    history := encodeIfArray data.history,
    tags := encodeIfArray data.tags,
    documentationObjectIds := encodeIfArray data.documentationObjectIds }

/-- The afterRead hook on one row: deserialize the three structured fields. -/
def afterRead (row : TicketData) : TicketData :=
  { row with
    history := deserializeArray row.history,
    tags := deserializeArray row.tags,
    documentationObjectIds := deserializeArray row.documentationObjectIds }

/-! ### The authenticate action

Embedding of the authenticate handler of srv/performance-service.js.  The
timingSafeEqual comparison of the two UTF-8 buffers (after the length guard)
decides exactly string equality, so safeEqual is string equality. -/

structure UserRec where
  email : String
  active : Bool
  name : String := ""
deriving DecidableEq, Repr

/-- The fixed demo credential table DEMO_PASSWORD_BY_EMAIL. -/
def DEMO_PASSWORD_BY_EMAIL : String → Option String := fun email =>
  if email = "alice.admin@inetum.com" then some "Admin#2026"
  else if email = "marc.manager@inetum.com" then some "Manager#2026"
  else if email = "theo.tech@inetum.com" then some "Tech#2026"
  else if email = "fatima.fonc@inetum.com" then some "Func#2026"
  else if email = "pierre.pm@inetum.com" then some "PM#2026"
  else if email = "diana.devco@inetum.com" then some "DevCo#2026"
  else none

/-- Constant-time buffer comparison: equal UTF-8 encodings exactly when the
strings are equal. -/
def safeEqual (l r : String) : Bool := l == r

/-- JavaScript toLowerCase, character-wise over the ASCII range. -/
def jsToLower (s : String) : String := String.mk (s.toList.map Char.toLower)

/-- The authenticate handler: normalize the email, reject blank credentials,
reject an unknown email or a mismatched password, then look up an active user
with that email; every rejection is the same 401 pair. -/
def authenticate (email password : String) (users : List UserRec) :
    Except (Nat × String) UserRec :=
  let email := jsToLower (jsTrim email)
  if email = "" ∨ password = "" then .error (401, "Invalid credentials")
  else
    match DEMO_PASSWORD_BY_EMAIL email with
    | none => .error (401, "Invalid credentials")
    | some expected =>
      if safeEqual password expected = false then .error (401, "Invalid credentials")
      else
        match (users.filter (fun u => u.active)).find? (fun u => jsToLower u.email = email) with
        | none => .error (401, "Invalid credentials")
        | some user => .ok user

/-! ### Record and store lemmas -/

theorem getField_setField_same (r : Record) (f : String) (v : Val) :
    getField (setField r f v) f = v := by
  unfold setField
  split
  · rename_i hany
    unfold getField
    induction r with
    | nil => simp at hany
    | cons p rl ih =>
      by_cases hp : p.1 = f
      · simp only [List.map_cons, if_pos hp]
        rw [List.find?_cons_of_pos _ (by simp)]
      · have hany' : rl.any (fun q => q.1 = f) = true := by
          simp only [List.any_cons, decide_eq_true_eq, hp, false_or] at hany
          simpa using hany
        simp only [List.map_cons, if_neg hp]
        rw [List.find?_cons_of_neg _ (by simpa using hp)]
        exact ih hany'
  · unfold getField
    rw [List.find?_append]
    rename_i hany
    have hnone : r.find? (fun p => p.1 = f) = none := by
      rw [List.find?_eq_none]
      intro p hp
      intro hcon
      have : r.any (fun q => q.1 = f) = true := by
        rw [List.any_eq_true]
        exact ⟨p, hp, by simpa using of_decide_eq_true hcon⟩
      exact absurd this (by simpa using hany)
    rw [hnone]
    simp [List.find?]

theorem find?_map_setField_ne (r : Record) (f g : String) (v : Val) (hne : g ≠ f) :
    (r.map (fun p => if p.1 = f then (f, v) else p)).find? (fun p => p.1 = g)
      = r.find? (fun p => p.1 = g) := by
  induction r with
  | nil => rfl
  | cons p rl ih =>
    by_cases hp : p.1 = f
    · simp only [List.map_cons, if_pos hp]
      rw [List.find?_cons_of_neg _ (by simp; exact fun hcon => hne hcon.symm),
        List.find?_cons_of_neg _ (by simp; exact fun hcon => hne (hcon ▸ hp)), ih]
    · simp only [List.map_cons, if_neg hp]
      by_cases hg : p.1 = g
      · rw [List.find?_cons_of_pos _ (by simpa using hg),
          List.find?_cons_of_pos _ (by simpa using hg)]
      · rw [List.find?_cons_of_neg _ (by simpa using hg),
          List.find?_cons_of_neg _ (by simpa using hg), ih]

theorem getField_setField_ne (r : Record) (f g : String) (v : Val) (hne : g ≠ f) :
    getField (setField r f v) g = getField r g := by
  unfold setField
  split
  · unfold getField
    rw [find?_map_setField_ne r f g v hne]
  · unfold getField
    rw [List.find?_append]
    have hlast : [(f, v)].find? (fun p => p.1 = g) = none := by
      rw [List.find?_cons_of_neg _ (by simp; exact fun hcon => hne hcon.symm)]
      rfl
    rw [hlast]
    cases r.find? (fun p => p.1 = g) <;> rfl

theorem getRec_updateRec (store : Store) (id : String) (changes : List (String × Val)) :
    getRec (updateRec store id changes) id
      = (getRec store id).map (fun r => applyChanges r changes) := by
  unfold getRec updateRec
  induction store with
  | nil => rfl
  | cons p st ih =>
    by_cases hp : p.1 = id
    · simp only [List.map_cons, if_pos hp]
      rw [List.find?_cons_of_pos _ (by simpa using hp),
        List.find?_cons_of_pos _ (by simpa using hp)]
      rfl
    · simp only [List.map_cons, if_neg hp]
      rw [List.find?_cons_of_neg _ (by simpa using hp),
        List.find?_cons_of_neg _ (by simpa using hp)]
      exact ih

theorem applyChanges_pair (r : Record) (f1 f2 : String) (v1 v2 : Val) :
    applyChanges r [(f1, v1), (f2, v2)] = setField (setField r f1 v1) f2 v2 := rfl

/-! ### Claim theorems: the transition-guarded dispatcher -/

/-- C1: for every bound action with a registered transition rule (Imputation
validate and reject; ImputationPeriod submit, validate and reject) and every
record whose current status is not in the rule's allowed source set,
dispatching returns the 409-class InvalidTransition error carrying the
current status and the allowed set, and the store (hence the record's status
field) is left unchanged. -/
theorem C1_invalid_transition_guard (a : RegisteredAction) (rule : TransitionRule)
    (store : Store) (id : String) (rec : Record) (input : ActionInput) (now : String)
    (hrule : ruleOf a = some rule)
    (hget : getRec store id = some rec)
    (hbad : memStatus (readStatus (registrations a).statusField rec) rule.allowedFrom = false) :
    runAction a store (some id) input now
      = ⟨.error (.invalidTransition (registrations a).action (registrations a).entitySetName id
          (readStatus (registrations a).statusField rec) rule.allowedFrom), store⟩
    ∧ DErr.code (.invalidTransition (registrations a).action (registrations a).entitySetName id
        (readStatus (registrations a).statusField rec) rule.allowedFrom) = 409 := by
  refine ⟨?_, rfl⟩
  cases a <;>
    simp only [ruleOf, registrations, IMPUTATION_TRANSITIONS, PERIOD_TRANSITIONS,
      reduceIte, Option.some.injEq, reduceCtorEq, String.reduceEq] at hrule <;>
    try exact absurd hrule (by simp)
  all_goals
    subst hrule
  all_goals
    simp only [runAction, registrations, dispatch, hget]
    simp only [IMPUTATION_TRANSITIONS, PERIOD_TRANSITIONS, String.reduceEq, reduceIte]
    simp only [registrations] at hbad
    simp [hbad]

/-- C1 witness: an Imputation already VALIDATED cannot be validated again; the
dispatcher answers InvalidTransition with the current status and the allowed
set, and the store is unchanged. -/
theorem C1_invalid_transition_guard_witness :
    runAction .imputationsValidate [("i1", [("validationStatus", Val.str "VALIDATED")])]
        (some "i1") {} "T1"
      = ⟨.error (.invalidTransition "validate" "Imputations" "i1" (Val.str "VALIDATED")
          ["DRAFT", "SUBMITTED", "REJECTED"]), [("i1", [("validationStatus", Val.str "VALIDATED")])]⟩
    ∧ DErr.code (.invalidTransition "validate" "Imputations" "i1" (Val.str "VALIDATED")
        ["DRAFT", "SUBMITTED", "REJECTED"]) = 409 :=
  C1_invalid_transition_guard .imputationsValidate ⟨["DRAFT", "SUBMITTED", "REJECTED"], "VALIDATED"⟩
    [("i1", [("validationStatus", Val.str "VALIDATED")])] "i1"
    [("validationStatus", Val.str "VALIDATED")] {} "T1" (by decide) rfl (by decide)

/-- C2: for every registered bound action, dispatching on an identifier that
resolves to no record returns the 404-class NotFound error and performs no
write (the store after the call is the store before it). -/
theorem C2_not_found_no_write (a : RegisteredAction) (store : Store) (id : String)
    (input : ActionInput) (now : String)
    (hmiss : getRec store id = none) :
    runAction a store (some id) input now
      = ⟨.error (.notFound (registrations a).entitySetName id), store⟩
    ∧ DErr.code (.notFound (registrations a).entitySetName id) = 404 := by
  refine ⟨?_, rfl⟩
  cases a <;> simp [runAction, registrations, dispatch, hmiss]

/-- C2 witness: sending a TimeLog that does not exist answers NotFound and
leaves the empty store empty. -/
theorem C2_not_found_no_write_witness :
    runAction .timeLogsSendToStraTIME [] (some "zzz") {} "T1"
      = ⟨.error (.notFound "TimeLogs" "zzz"), []⟩
    ∧ DErr.code (.notFound "TimeLogs" "zzz") = 404 :=
  C2_not_found_no_write .timeLogsSendToStraTIME [] "zzz" {} "T1" rfl

/-- C3: an ImputationPeriod in DRAFT submits to SUBMITTED; validating with
actor mgr1 yields VALIDATED with validatedBy mgr1; a subsequent submit fails
with InvalidTransition because VALIDATED is not in the submit rule's allowed
source set consisting of DRAFT and REJECTED, and the store is unchanged by the
failed call (VALIDATED is terminal). -/
theorem C3_period_workflow_scenario :
    (runAction .periodsSubmit [("p1", [("status", Val.str "DRAFT")])] (some "p1") {} "T1")
      = ⟨.ok (some [("status", Val.str "SUBMITTED"), ("submittedAt", Val.str "T1")]),
         [("p1", [("status", Val.str "SUBMITTED"), ("submittedAt", Val.str "T1")])]⟩
    ∧ (runAction .periodsValidate
        [("p1", [("status", Val.str "SUBMITTED"), ("submittedAt", Val.str "T1")])]
        (some "p1") { validatedBy := some "mgr1" } "T2")
      = ⟨.ok (some [("status", Val.str "VALIDATED"), ("submittedAt", Val.str "T1"),
            ("validatedBy", Val.str "mgr1"), ("validatedAt", Val.str "T2")]),
         [("p1", [("status", Val.str "VALIDATED"), ("submittedAt", Val.str "T1"),
            ("validatedBy", Val.str "mgr1"), ("validatedAt", Val.str "T2")])]⟩
    ∧ (runAction .periodsSubmit
        [("p1", [("status", Val.str "VALIDATED"), ("submittedAt", Val.str "T1"),
          ("validatedBy", Val.str "mgr1"), ("validatedAt", Val.str "T2")])]
        (some "p1") {} "T3")
      = ⟨.error (.invalidTransition "submit" "ImputationPeriods" "p1" (Val.str "VALIDATED")
          ["DRAFT", "REJECTED"]),
         [("p1", [("status", Val.str "VALIDATED"), ("submittedAt", Val.str "T1"),
          ("validatedBy", Val.str "mgr1"), ("validatedAt", Val.str "T2")])]⟩
    ∧ PERIOD_TRANSITIONS "submit" = some ⟨["DRAFT", "REJECTED"], "SUBMITTED"⟩
    ∧ (PERIOD_TRANSITIONS "submit").all (fun r => !r.allowedFrom.contains "VALIDATED")
    ∧ (PERIOD_TRANSITIONS "validate").all (fun r => !r.allowedFrom.contains "VALIDATED")
    ∧ (PERIOD_TRANSITIONS "reject").all (fun r => !r.allowedFrom.contains "VALIDATED") :=
  ⟨rfl, rfl, rfl, rfl, rfl, rfl, rfl⟩

/-- C8: dispatching sendToStraTIME on an existing TimeLog succeeds with no
guard, setting sentToStraTIME true and sentAt to the call time; dispatching it
again succeeds again, re-setting sentToStraTIME true and overwriting sentAt
with the second call's time. -/
theorem C8_timelog_resend_overwrites (store : Store) (id : String) (rec : Record)
    (input1 input2 : ActionInput) (now1 now2 : String)
    (hget : getRec store id = some rec) :
    (runAction .timeLogsSendToStraTIME store (some id) input1 now1).response
      = .ok (some (applyChanges rec [("sentToStraTIME", .bool true), ("sentAt", .str now1)]))
    ∧ getField (applyChanges rec [("sentToStraTIME", .bool true), ("sentAt", .str now1)])
        "sentToStraTIME" = .bool true
    ∧ getField (applyChanges rec [("sentToStraTIME", .bool true), ("sentAt", .str now1)])
        "sentAt" = .str now1
    ∧ (runAction .timeLogsSendToStraTIME
        (runAction .timeLogsSendToStraTIME store (some id) input1 now1).store
        (some id) input2 now2).response
      = .ok (some (applyChanges
          (applyChanges rec [("sentToStraTIME", .bool true), ("sentAt", .str now1)])
          [("sentToStraTIME", .bool true), ("sentAt", .str now2)]))
    ∧ getField (applyChanges
          (applyChanges rec [("sentToStraTIME", .bool true), ("sentAt", .str now1)])
          [("sentToStraTIME", .bool true), ("sentAt", .str now2)]) "sentToStraTIME" = .bool true
    ∧ getField (applyChanges
          (applyChanges rec [("sentToStraTIME", .bool true), ("sentAt", .str now1)])
          [("sentToStraTIME", .bool true), ("sentAt", .str now2)]) "sentAt" = .str now2 := by
  have hfields : ∀ (r : Record) (now : String),
      getField (applyChanges r [("sentToStraTIME", .bool true), ("sentAt", .str now)])
          "sentToStraTIME" = .bool true
      ∧ getField (applyChanges r [("sentToStraTIME", .bool true), ("sentAt", .str now)])
          "sentAt" = .str now := by
    intro r now
    rw [applyChanges_pair, getField_setField_ne _ _ _ _ (by decide),
      getField_setField_same, getField_setField_same]
    exact ⟨rfl, rfl⟩
  have hrun : ∀ (st : Store) (inp : ActionInput) (now : String) (r : Record),
      getRec st id = some r →
      runAction .timeLogsSendToStraTIME st (some id) inp now
        = ⟨.ok (some (applyChanges r [("sentToStraTIME", .bool true), ("sentAt", .str now)])),
           updateRec st id [("sentToStraTIME", .bool true), ("sentAt", .str now)]⟩ := by
    intro st inp now r hst
    simp only [runAction, registrations, dispatch]
    simp [hst, getRec_updateRec]
  have hstore1 : (runAction .timeLogsSendToStraTIME store (some id) input1 now1).store
      = updateRec store id [("sentToStraTIME", .bool true), ("sentAt", .str now1)] := by
    rw [hrun store input1 now1 rec hget]
  have hget2 : getRec (updateRec store id [("sentToStraTIME", .bool true), ("sentAt", .str now1)])
      id = some (applyChanges rec [("sentToStraTIME", .bool true), ("sentAt", .str now1)]) := by
    rw [getRec_updateRec, hget]
    rfl
  refine ⟨?_, (hfields rec now1).1, (hfields rec now1).2, ?_, (hfields _ now2).1,
    (hfields _ now2).2⟩
  · rw [hrun store input1 now1 rec hget]
  · rw [hstore1, hrun _ input2 now2 _ hget2]

/-- C8 witness: a concrete TimeLog sent twice; both calls succeed and the
second overwrites the timestamp. -/
theorem C8_timelog_resend_overwrites_witness :
    (runAction .timeLogsSendToStraTIME [("t1", [("sentToStraTIME", Val.bool false)])]
        (some "t1") {} "T1").response
      = .ok (some (applyChanges [("sentToStraTIME", Val.bool false)]
          [("sentToStraTIME", .bool true), ("sentAt", .str "T1")]))
    ∧ getField (applyChanges [("sentToStraTIME", Val.bool false)]
        [("sentToStraTIME", .bool true), ("sentAt", .str "T1")]) "sentToStraTIME" = .bool true
    ∧ getField (applyChanges [("sentToStraTIME", Val.bool false)]
        [("sentToStraTIME", .bool true), ("sentAt", .str "T1")]) "sentAt" = .str "T1"
    ∧ (runAction .timeLogsSendToStraTIME
        (runAction .timeLogsSendToStraTIME [("t1", [("sentToStraTIME", Val.bool false)])]
          (some "t1") {} "T1").store
        (some "t1") {} "T2").response
      = .ok (some (applyChanges
          (applyChanges [("sentToStraTIME", Val.bool false)]
            [("sentToStraTIME", .bool true), ("sentAt", .str "T1")])
          [("sentToStraTIME", .bool true), ("sentAt", .str "T2")]))
    ∧ getField (applyChanges
          (applyChanges [("sentToStraTIME", Val.bool false)]
            [("sentToStraTIME", .bool true), ("sentAt", .str "T1")])
          [("sentToStraTIME", .bool true), ("sentAt", .str "T2")]) "sentToStraTIME" = .bool true
    ∧ getField (applyChanges
          (applyChanges [("sentToStraTIME", Val.bool false)]
            [("sentToStraTIME", .bool true), ("sentAt", .str "T1")])
          [("sentToStraTIME", .bool true), ("sentAt", .str "T2")]) "sentAt" = .str "T2" :=
  C8_timelog_resend_overwrites [("t1", [("sentToStraTIME", Val.bool false)])] "t1"
    [("sentToStraTIME", Val.bool false)] {} {} "T1" "T2" rfl

/-! ### Claim theorems: the structured-field codec -/

theorem jsTrim_stringify_arr (es : List Json) :
    jsTrim (jsonStringify (.arr es)) = jsonStringify (.arr es) := by
  unfold jsTrim jsonStringify
  have hchars : stringifyChars (.arr es) = '[' :: (stringifyElems es ++ [']']) := rfl
  have htl : (String.mk ('[' :: (stringifyElems es ++ [']']))).toList
      = '[' :: (stringifyElems es ++ [']']) := rfl
  rw [hchars, htl, List.dropWhile_cons, if_neg (by decide)]
  rw [List.reverse_cons, List.reverse_append]
  simp only [List.reverse_singleton, List.singleton_append, List.cons_append,
    List.dropWhile_cons, if_neg (by decide : ¬isJsTrimWs ']' = true)]
  simp

theorem serializeArray_arr (es : List Json) :
    serializeArray (.json (.arr es)) = jsonStringify (.arr es) := rfl

/-- C4: the codec round-trips: decoding the encoding of every representable
list value yields the same list; in particular a ticket created with one tag
urgent persists the tags field as the encoded text and an immediate read
returns the singleton list again. -/
theorem C4_codec_round_trip :
    (∀ es : List Json,
      deserializeArray (.text (serializeArray (.json (.arr es)))) = .json (.arr es))
    ∧ (createTicket []
        { projectId := some "P1", title := some "Fix", nature := some "BUG",
          history := .json (.arr []), tags := .json (.arr [.str "urgent"]) }
        2026 [0, 1, 2] "T1").1.toOption.map (fun d => d.tags)
      = some (.text "[\"urgent\"]")
    ∧ (createTicket []
        { projectId := some "P1", title := some "Fix", nature := some "BUG",
          history := .json (.arr []), tags := .json (.arr [.str "urgent"]) }
        2026 [0, 1, 2] "T1").1.toOption.map (fun d => (afterRead d).tags)
      = some (.json (.arr [.str "urgent"])) := by
  refine ⟨?_, rfl, rfl⟩
  intro es
  rw [serializeArray_arr]
  show (if (jsTrim (jsonStringify (.arr es))).toList.head? = some '[' then
      match jsonParse (jsonStringify (.arr es)) with
      | some j => FieldVal.json j
      | none => FieldVal.json (Json.arr [])
    else FieldVal.json (Json.arr [])) = FieldVal.json (Json.arr es)
  rw [jsTrim_stringify_arr]
  have hhead : (jsonStringify (.arr es)).toList.head? = some '[' := rfl
  rw [hhead, if_pos rfl, jsonParse_jsonStringify]

/-- C5: malformed stored text that begins like a container decodes on a
non-ticket entity to the original raw text unchanged (the parse failure is
swallowed), while the same malformed text on a ticket field decodes to the
empty list. -/
theorem C5_malformed_decode (s : String)
    (hhead : s.toList.head? = some '[' ∨ s.toList.head? = some '{')
    (hfail : jsonParse s = none) :
    decodeStoredField (.text s) = .text s
    ∧ ((jsTrim s).toList.head? = some '[' → deserializeArray (.text s) = .json (.arr [])) := by
  constructor
  · show (if s.toList.head? = some '[' ∨ s.toList.head? = some '{' then
        match jsonParse s with
        | some j => FieldVal.json j
        | none => FieldVal.text s
      else FieldVal.text s) = FieldVal.text s
    rw [if_pos hhead, hfail]
  · intro htrim
    show (if (jsTrim s).toList.head? = some '[' then
        match jsonParse s with
        | some j => FieldVal.json j
        | none => FieldVal.json (Json.arr [])
      else FieldVal.json (Json.arr [])) = FieldVal.json (Json.arr [])
    rw [if_pos htrim, hfail]

/-- C5 witness: the text left-bracket-oops fails to parse; the non-ticket
decode keeps it raw and the ticket decode yields the empty list. -/
theorem C5_malformed_decode_witness :
    decodeStoredField (.text "[oops") = .text "[oops"
    ∧ ((jsTrim "[oops").toList.head? = some '[' →
        deserializeArray (.text "[oops") = .json (.arr [])) :=
  C5_malformed_decode "[oops" (Or.inl rfl) rfl

/-! ### Parse-shape lemmas for the always-a-list property -/

theorem dropWs_idem (l : List Char) : dropWs (dropWs l) = dropWs l := by
  induction l with
  | nil => rfl
  | cons c t ih =>
    by_cases hw : isJsonWs c = true
    · rw [dropWs, if_pos hw, ih]
    · rw [dropWs, if_neg hw, dropWs, if_neg hw]

theorem parseValue_dropWs (fuel : Nat) (l : List Char) :
    parseValue (fuel + 1) l = parseValue (fuel + 1) (dropWs l) := by
  rw [parseValue.eq_def]
  conv_rhs => rw [parseValue.eq_def]
  simp only [dropWs_idem]

/-- A head character that the trim model drops but the JSON grammar does not
(vertical tab or form feed). -/
theorem trimOnly_ws {c : Char} (hw : isJsTrimWs c = true) (hj : isJsonWs c = false) :
    c = Char.ofNat 11 ∨ c = Char.ofNat 12 := by
  simp only [isJsTrimWs, Bool.or_eq_true, decide_eq_true_eq] at hw
  simp only [isJsonWs, Bool.or_eq_false_iff, decide_eq_false_iff_not] at hj
  rcases hw with ((((h | h) | h) | h) | h) | h
  · exact absurd h hj.1.1.1
  · exact absurd h hj.1.1.2
  · exact absurd h hj.1.2
  · exact absurd h hj.2
  · exact Or.inl h
  · exact Or.inr h

theorem trim_head_dropWhile (s : String) (h : (jsTrim s).toList.head? = some '[') :
    (s.toList.dropWhile isJsTrimWs).head? = some '[' := by
  have hR : (jsTrim s).toList
      = ((s.toList.dropWhile isJsTrimWs).reverse.dropWhile isJsTrimWs).reverse := rfl
  rw [hR] at h
  have hsplit : s.toList.dropWhile isJsTrimWs
      = ((s.toList.dropWhile isJsTrimWs).reverse.dropWhile isJsTrimWs).reverse
        ++ ((s.toList.dropWhile isJsTrimWs).reverse.takeWhile isJsTrimWs).reverse := by
    conv_lhs => rw [← List.reverse_reverse (s.toList.dropWhile isJsTrimWs)]
    conv_lhs =>
      rw [← List.takeWhile_append_dropWhile (p := isJsTrimWs)
        (l := (s.toList.dropWhile isJsTrimWs).reverse)]
    rw [List.reverse_append]
  cases hA : ((s.toList.dropWhile isJsTrimWs).reverse.dropWhile isJsTrimWs).reverse with
  | nil => rw [hA] at h; simp at h
  | cons a t =>
    rw [hA] at h
    simp only [List.head?_cons, Option.some.injEq] at h
    subst h
    rw [hsplit, hA]
    rfl

theorem dropWhile_trim_vs_json (l : List Char)
    (h : (l.dropWhile isJsTrimWs).head? = some '[') :
    (dropWs l).head? = some '[' ∨
      ∃ c t, dropWs l = c :: t ∧ (c = Char.ofNat 11 ∨ c = Char.ofNat 12) := by
  induction l with
  | nil => simp at h
  | cons c t ih =>
    by_cases hw : isJsTrimWs c = true
    · by_cases hj : isJsonWs c = true
      · rw [List.dropWhile_cons, if_pos hw] at h
        rw [dropWs, if_pos hj]
        exact ih h
      · right
        refine ⟨c, t, ?_, trimOnly_ws hw (by simpa using hj)⟩
        rw [dropWs, if_neg hj]
    · rw [List.dropWhile_cons, if_neg hw] at h
      simp only [List.head?_cons, Option.some.injEq] at h
      subst h
      left
      rw [dropWs_not_ws t (by decide)]
      rfl

/-- A successful parse of input opening with a bracket yields an array. -/
theorem parseValue_bracket_arr (fuel : Nat) (r : List Char) (j : Json) (rest : List Char)
    (h : parseValue fuel ('[' :: r) = some (j, rest)) : ∃ es, j = .arr es := by
  match fuel with
  | 0 => exact absurd h (by rw [parseValue]; simp)
  | fuel + 1 =>
    rw [parseValue.eq_def] at h
    simp only at h
    rw [dropWs_not_ws _ (by decide)] at h
    split at h
    · rename_i r2 heq
      exact absurd heq (by simp)
    · rename_i r2 heq
      exact absurd heq (by simp)
    · rename_i r2 heq
      exact absurd heq (by simp)
    · rename_i r2 heq
      exact absurd heq (by simp)
    · rename_i r2 heq
      split at h
      · exact absurd h (by simp)
      · rename_i c r' heq2
        split at h
        · simp only [Option.some.injEq, Prod.mk.injEq] at h
          exact ⟨[], h.1.symm⟩
        · split at h
          · exact absurd h (by simp)
          · rename_i es r'' heq3
            simp only [Option.some.injEq, Prod.mk.injEq] at h
            exact ⟨es, h.1.symm⟩
    · rename_i r2 heq
      exact absurd heq (by simp)
    · exact absurd h (by rw [show parseIntToken ('[' :: r) = none from rfl]; simp)

/-- The parser rejects input opening with whitespace the JSON grammar does not
skip. -/
theorem parseValue_oddWs_none (fuel : Nat) (c : Char) (t : List Char)
    (hc : c = Char.ofNat 11 ∨ c = Char.ofNat 12) :
    parseValue fuel (c :: t) = none := by
  match fuel with
  | 0 => rfl
  | fuel + 1 =>
    rcases hc with rfl | rfl
    · rw [parseValue_token fuel _ t (by decide) (by decide) (by decide) (by decide) (by decide)
        (by decide) (by decide)]
      simp [parseIntToken, parseNatToken, List.takeWhile_cons,
        show (Char.ofNat 11).isDigit = false from rfl]
    · rw [parseValue_token fuel _ t (by decide) (by decide) (by decide) (by decide) (by decide)
        (by decide) (by decide)]
      simp [parseIntToken, parseNatToken, List.takeWhile_cons,
        show (Char.ofNat 12).isDigit = false from rfl]

/-- A stored string whose trimmed form opens a list parses, when it parses at
all, to an array. -/
theorem jsonParse_trimmed_bracket (s : String) (j : Json)
    (htrim : (jsTrim s).toList.head? = some '[') (hp : jsonParse s = some j) :
    ∃ es, j = .arr es := by
  unfold jsonParse at hp
  split at hp
  · exact absurd hp (by simp)
  · rename_i j0 r heq
    split at hp
    · simp only [Option.some.injEq] at hp
      subst hp
      have h1 := trim_head_dropWhile s htrim
      have h2 := dropWhile_trim_vs_json s.toList h1
      rw [parseValue_dropWs] at heq
      rcases h2 with h2 | ⟨c, t, hct, hc⟩
      · obtain ⟨r2, hr2⟩ : ∃ r2, dropWs s.toList = '[' :: r2 := by
          cases hd : dropWs s.toList with
          | nil => rw [hd] at h2; simp at h2
          | cons a t =>
            rw [hd] at h2
            simp only [List.head?_cons, Option.some.injEq] at h2
            exact ⟨t, by rw [h2]⟩
        rw [hr2] at heq
        exact parseValue_bracket_arr _ _ _ _ heq
      · rw [hct, parseValue_oddWs_none _ c t hc] at heq
        exact absurd heq (by simp)
    · exact absurd hp (by simp)

/-- C10: every value leaving the ticket deserializer is a list: a stored value
that is not already an array and not text whose trimmed form opens a list is
replaced by the empty list, and in every case (including parsed text) the
result is an array, so the three structured fields of a read ticket row are
never a raw string or object. -/
theorem C10_ticket_reads_always_lists :
    (∀ v : FieldVal, ∃ es, deserializeArray v = .json (.arr es))
    ∧ (∀ v : FieldVal, FieldVal.isArrayVal v = false →
        (∀ s, v = .text s → (jsTrim s).toList.head? ≠ some '[') →
        deserializeArray v = .json (.arr []))
    ∧ (∀ row : TicketData, ∃ hs ts ds,
        (afterRead row).history = .json (.arr hs)
        ∧ (afterRead row).tags = .json (.arr ts)
        ∧ (afterRead row).documentationObjectIds = .json (.arr ds)) := by
  have hmain : ∀ v : FieldVal, ∃ es, deserializeArray v = .json (.arr es) := by
    intro v
    match v with
    | .null => exact ⟨[], rfl⟩
    | .json .null => exact ⟨[], rfl⟩
    | .json (.bool b) => exact ⟨[], rfl⟩
    | .json (.num i) => exact ⟨[], rfl⟩
    | .json (.str s) => exact ⟨[], rfl⟩
    | .json (.arr es) => exact ⟨es, rfl⟩
    | .json (.obj ps) => exact ⟨[], rfl⟩
    | .text s =>
      by_cases htrim : (jsTrim s).toList.head? = some '['
      · cases hp : jsonParse s with
        | none =>
          refine ⟨[], ?_⟩
          show (if (jsTrim s).toList.head? = some '[' then
              match jsonParse s with
              | some j => FieldVal.json j
              | none => FieldVal.json (Json.arr [])
            else FieldVal.json (Json.arr [])) = FieldVal.json (Json.arr [])
          rw [if_pos htrim, hp]
        | some j =>
          obtain ⟨es, rfl⟩ := jsonParse_trimmed_bracket s j htrim hp
          refine ⟨es, ?_⟩
          show (if (jsTrim s).toList.head? = some '[' then
              match jsonParse s with
              | some j => FieldVal.json j
              | none => FieldVal.json (Json.arr [])
            else FieldVal.json (Json.arr [])) = FieldVal.json (Json.arr es)
          rw [if_pos htrim, hp]
      · refine ⟨[], ?_⟩
        show (if (jsTrim s).toList.head? = some '[' then
            match jsonParse s with
            | some j => FieldVal.json j
            | none => FieldVal.json (Json.arr [])
          else FieldVal.json (Json.arr [])) = FieldVal.json (Json.arr [])
        rw [if_neg htrim]
  refine ⟨hmain, ?_, ?_⟩
  · intro v hnotarr htext
    match v with
    | .null => rfl
    | .json .null => rfl
    | .json (.bool b) => rfl
    | .json (.num i) => rfl
    | .json (.str s) => rfl
    | .json (.arr es) => exact absurd hnotarr (by simp [FieldVal.isArrayVal])
    | .json (.obj ps) => rfl
    | .text s =>
      show (if (jsTrim s).toList.head? = some '[' then
          match jsonParse s with
          | some j => FieldVal.json j
          | none => FieldVal.json (Json.arr [])
        else FieldVal.json (Json.arr [])) = FieldVal.json (Json.arr [])
      rw [if_neg (htext s rfl)]
  · intro row
    obtain ⟨hs, hh⟩ := hmain row.history
    obtain ⟨ts, ht⟩ := hmain row.tags
    obtain ⟨ds, hd⟩ := hmain row.documentationObjectIds
    exact ⟨hs, ts, ds, hh, ht, hd⟩

/-- C10 witness: a stored object value on a ticket field (no array, no
bracket-opening text) decodes to the empty list, and so does raw text that
opens with no bracket. -/
theorem C10_ticket_reads_always_lists_witness :
    deserializeArray (.json (.obj [("k", .num 1)])) = .json (.arr [])
    ∧ deserializeArray (.text "plain text") = .json (.arr []) :=
  ⟨C10_ticket_reads_always_lists.2.1 (.json (.obj [("k", .num 1)])) rfl
      (fun s hs => by cases hs),
   C10_ticket_reads_always_lists.2.1 (.text "plain text") rfl
      (fun s hs => by cases hs; decide)⟩

/-! ### Claim theorems: ticket creation, code generation, authentication -/

/-- C6: on ticket create the domain service checks required fields (a missing
project reference, title or classification fails with ValidationError and no
write reaches the store), and otherwise inserts a record carrying the injected
defaults (status NEW unless supplied, zero effort and estimation hours,
creation and update timestamps), the generated ticket code, and the codec
encoding of every structured field. -/
theorem C6_ticket_create_pipeline :
    (∀ (store : List TicketData) (data : TicketData) (year : Nat) (entropy : List Nat)
        (now : String),
      (falsyStr data.projectId = true ∨ falsyStr data.title = true ∨
        falsyStr data.nature = true) →
      (createTicket store data year entropy now).2 = store
      ∧ ∃ errs, (createTicket store data year entropy now).1 = .error errs ∧ errs ≠ [])
    ∧ (∀ (store : List TicketData) (data : TicketData) (year : Nat) (entropy : List Nat)
        (now : String),
      falsyStr data.projectId = false → falsyStr data.title = false →
      falsyStr data.nature = false →
      ∃ d, createTicket store data year entropy now = (.ok d, store ++ [d])
        ∧ d.status = some (orFalsyDefault data.status "NEW")
        ∧ d.effortHours = some (data.effortHours.getD 0)
        ∧ d.estimationHours = some (data.estimationHours.getD 0)
        ∧ d.createdAt = some (orFalsyDefault data.createdAt now)
        ∧ d.updatedAt = some now
        ∧ d.ticketCode = some (generateTicketCode year entropy)
        ∧ d.history = .text (serializeArray (orEmptyList data.history))
        ∧ d.tags = .text (serializeArray (orEmptyList data.tags))
        ∧ d.documentationObjectIds
            = .text (serializeArray (orEmptyList data.documentationObjectIds))) := by
  constructor
  · intro store data year entropy now hmiss
    have herrs : requiredFieldErrors data ≠ [] := by
      unfold requiredFieldErrors
      rcases hmiss with h | h | h <;> rw [h] <;> simp
    have hkey : createTicket store data year entropy now
        = (.error (requiredFieldErrors data), store) := by
      unfold createTicket
      simp [herrs]
      rw [show (beforeCreate data year (countForYear store year + 1) entropy now).1
          = requiredFieldErrors data from rfl, if_neg herrs]
    rw [hkey]
    exact ⟨rfl, requiredFieldErrors data, rfl, herrs⟩
  · intro store data year entropy now hp ht hn
    have herrs : requiredFieldErrors data = [] := by
      unfold requiredFieldErrors
      rw [hp, ht, hn]
      simp
    refine ⟨(beforeCreate data year (countForYear store year + 1) entropy now).2,
      ?_, ?_, ?_, ?_, ?_, ?_, ?_, ?_, ?_, ?_⟩
    · unfold createTicket
      simp [herrs]
      exact herrs
    all_goals rfl

/-- C6 witness: a create without a title fails and writes nothing; a complete
create inserts the transformed record with defaults, code and encoded
fields. -/
theorem C6_ticket_create_pipeline_witness :
    ((createTicket [] { projectId := some "P1", nature := some "BUG" } 2026 [0, 1, 2] "T1").2
        = []
      ∧ ∃ errs, (createTicket [] { projectId := some "P1", nature := some "BUG" }
          2026 [0, 1, 2] "T1").1 = .error errs ∧ errs ≠ [])
    ∧ ∃ d, createTicket []
          { projectId := some "P1", title := some "Fix", nature := some "BUG" }
          2026 [0, 1, 2] "T1" = (.ok d, [] ++ [d])
        ∧ d.status = some (orFalsyDefault none "NEW")
        ∧ d.effortHours = some (Option.getD none 0)
        ∧ d.estimationHours = some (Option.getD none 0)
        ∧ d.createdAt = some (orFalsyDefault none "T1")
        ∧ d.updatedAt = some "T1"
        ∧ d.ticketCode = some (generateTicketCode 2026 [0, 1, 2])
        ∧ d.history = .text (serializeArray (orEmptyList .null))
        ∧ d.tags = .text (serializeArray (orEmptyList .null))
        ∧ d.documentationObjectIds = .text (serializeArray (orEmptyList .null)) :=
  ⟨C6_ticket_create_pipeline.1 [] { projectId := some "P1", nature := some "BUG" }
      2026 [0, 1, 2] "T1" (Or.inr (Or.inl rfl)),
   C6_ticket_create_pipeline.2 []
      { projectId := some "P1", title := some "Fix", nature := some "BUG" }
      2026 [0, 1, 2] "T1" rfl rfl rfl⟩

/-- C7: both generators produce a code of the form TK-year-suffix, and the
next sequential code is a function of the year and of the count of codes in
the year partition alone, never of any previously issued code's value. -/
theorem C7_ticket_code_format :
    (∀ (year : Nat) (entropy : List Nat), ∃ suffix,
      generateTicketCode year entropy = "TK-" ++ toString year ++ "-" ++ suffix)
    ∧ (∀ year seq : Nat, ∃ suffix,
      generateTicketCodeSeq year seq = "TK-" ++ toString year ++ "-" ++ suffix)
    ∧ (∃ f : Nat → Nat → String, ∀ (store : List TicketData) (year : Nat),
      generateTicketCodeSeq year (countForYear store year + 1)
        = f (countForYear store year) year) := by
  refine ⟨fun year entropy => ⟨String.mk (entropy.flatMap byteHexUpper), rfl⟩,
    fun year seq => ⟨padStart4 (toString seq), rfl⟩,
    ⟨fun count year => generateTicketCodeSeq year (count + 1), fun store year => rfl⟩⟩

/-- C9: every failing authenticate call is rejected with one and the same
pair of code and message (401, Invalid credentials), whether the email is
unknown, the password mismatches, or no matching active user exists, so the
rejection does not reveal whether the email exists. -/
theorem C9_uniform_authentication_failure (e1 p1 : String) (us1 : List UserRec)
    (e2 p2 : String) (us2 : List UserRec) (err1 err2 : Nat × String)
    (h1 : authenticate e1 p1 us1 = .error err1)
    (h2 : authenticate e2 p2 us2 = .error err2) :
    err1 = err2 ∧ err1 = (401, "Invalid credentials") := by
  have key : ∀ (e p : String) (us : List UserRec) (err : Nat × String),
      authenticate e p us = .error err → err = (401, "Invalid credentials") := by
    intro e p us err h
    simp only [authenticate] at h
    split at h
    · exact (Except.error.inj h).symm
    · split at h
      · exact (Except.error.inj h).symm
      · split at h
        · exact (Except.error.inj h).symm
        · split at h
          · exact (Except.error.inj h).symm
          · exact absurd h (by simp)
  exact ⟨(key e1 p1 us1 err1 h1).trans (key e2 p2 us2 err2 h2).symm, key e1 p1 us1 err1 h1⟩

/-- C9 witness: an unknown email and a wrong password on a known email are
rejected identically. -/
theorem C9_uniform_authentication_failure_witness :
    (401, "Invalid credentials") = (401, "Invalid credentials")
    ∧ (401, "Invalid credentials") = ((401 : Nat), "Invalid credentials") :=
  C9_uniform_authentication_failure "nobody@example.com" "pw" [] "alice.admin@inetum.com"
    "wrong" [] (401, "Invalid credentials") (401, "Invalid credentials") rfl rfl

end CAPFullstack
